import Mathlib

/-!
Shallow embedding of the parsing core of `Account_Summary_MP_to_XLSX.py`:
line reconstruction (`combine_broken_lines`), field extraction
(`extract_fields_from_line`) and value normalization
(`convert_money_to_number`, `clean_balance`), together with the record
collection step of `pdf_text_to_dataframe`.

Strings are modelled as lists of characters (`Str`).  The regular
expression class `\d` is modelled as an ASCII digit, Python `str.strip()`
as trimming of whitespace characters, and `text.split('\n')` as
`splitNL`.  The anchored pattern `^\d{2}-\d{2}-\d{4}` succeeds (for both
`match` and `search`) exactly when the first ten characters of the string
have the date shape, which `date_pattern_match` tests.
-/

set_option maxHeartbeats 1000000

namespace MP

abbrev Str := List Char

/-- Convert a Lean string literal into the character-list model. -/
def strOf (s : String) : Str := s.data

/-- Python `s.strip()`: remove leading and trailing whitespace. -/
def strip (s : Str) : Str :=
  ((s.dropWhile Char.isWhitespace).reverse.dropWhile Char.isWhitespace).reverse

/-- `date_pattern = re.compile(r'^\d{2}-\d{2}-\d{4}')`.  Because of the `^`
anchor (and no MULTILINE flag), both `date_pattern.match` and
`date_pattern.search` succeed exactly when the first ten characters are
two digits, a dash, two digits, a dash and four digits. -/
def date_pattern_match (s : Str) : Bool :=
  match s with
  | d1 :: d2 :: s1 :: m1 :: m2 :: s2 :: y1 :: y2 :: y3 :: y4 :: _ =>
    d1.isDigit && d2.isDigit && s1 == '-' && m1.isDigit && m2.isDigit && s2 == '-'
      && y1.isDigit && y2.isDigit && y3.isDigit && y4.isDigit
  | _ => false

/-- Accumulator form of Python `text.split('\n')`. -/
def splitNLAux : Str → Str → List Str
  | acc, [] => [acc.reverse]
  | acc, c :: cs => if c = '\n' then acc.reverse :: splitNLAux [] cs else splitNLAux (c :: acc) cs

/-- `text.split('\n')`. -/
def splitNL (s : Str) : List Str := splitNLAux [] s

/-- `if current_line: combined_lines.append(current_line.strip())` — the flush
step of `combine_broken_lines`. -/
def flushAcc (cur : Str) : List Str := if cur = [] then [] else [strip cur]

/-- The loop of `combine_broken_lines`: a date-matching line flushes the
accumulator and starts a new one; any other line is appended to the
accumulator with a single space; the final accumulator is flushed. -/
def combineLinesAux : Str → List Str → List Str
  | cur, [] => flushAcc cur
  | cur, line :: rest =>
    if date_pattern_match line then flushAcc cur ++ combineLinesAux line rest
    else combineLinesAux (cur ++ ' ' :: line) rest

/-- `combine_broken_lines(text)`. -/
def combine_broken_lines (text : Str) : List Str := combineLinesAux [] (splitNL text)

/-- Indices (0-based) of the occurrences of a character, in order:
`money_pattern.finditer` start positions for the pattern `\$`. -/
def idxsOfAux (c : Char) : Nat → Str → List Nat
  | _, [] => []
  | i, x :: xs => if x = c then i :: idxsOfAux c (i + 1) xs else idxsOfAux c (i + 1) xs

/-- Start positions of all occurrences of a character in a string. -/
def idxsOf (c : Char) (s : Str) : List Nat := idxsOfAux c 0 s

/-- Accumulator form of `id_pattern.findall` for `\d+`: the maximal digit
runs of a string, in order.  `run` holds the digits of the current run in
reverse. -/
def digitRunsAux : Str → Str → List Str
  | run, [] => if run = [] then [] else [run.reverse]
  | run, c :: cs =>
    if c.isDigit then digitRunsAux (c :: run) cs
    else if run = [] then digitRunsAux [] cs
    else run.reverse :: digitRunsAux [] cs

/-- `id_pattern.findall(s)` for `id_pattern = re.compile(r'\d+')`. -/
def digitRuns (s : Str) : List Str := digitRunsAux [] s

/-- The candidate start positions at which `pat` occurs in `s`, in order. -/
def occIdxs (s pat : Str) : List Nat :=
  (List.range (s.length + 1)).filter (fun i => pat.isPrefixOf (s.drop i))

/-- Python `s.rfind(pat)`: the greatest index at which `pat` occurs as a
substring of `s`, or `-1` when it does not occur. -/
def rfind (s pat : Str) : Int :=
  match (occIdxs s pat).getLast? with
  | some p => (p : Int)
  | none => -1

/-- Python slicing `s[:i]` for an `int` bound `i`, including the negative
case (`s[:-k]` keeps all but the last `k` characters). -/
def pyTake (s : Str) (i : Int) : Str :=
  if 0 ≤ i then s.take i.toNat else s.take (s.length - (-i).toNat)

/-- Python `s.find('.')` restricted to what `clean_balance` needs: the index
of the first occurrence of a character, if any (`'.' in s` plus `s.index('.')`). -/
def firstIdx (c : Char) : Str → Option Nat
  | [] => none
  | x :: xs => if x = c then some 0 else (firstIdx c xs).map (· + 1)

/-- `convert_money_to_number(money_str)`: drop every `'$'`, drop every
`'.'`, replace every `','` by `'.'`, then strip. -/
def convert_money_to_number (s : Str) : Str :=
  strip (((s.filter (fun c => c != '$')).filter (fun c => c != '.')).map
    (fun c => if c = ',' then '.' else c))

/-- `clean_balance(balance_str)`: if the string contains a `'.'`, cut it
right after the second character following the first `'.'`. -/
def clean_balance (s : Str) : Str :=
  match firstIdx '.' s with
  | some p => if p + 3 < s.length then s.take (p + 3) else s
  | none => s

/-- Number of characters strictly after the first `'.'` of a string
(`0` when there is no `'.'`). -/
def chars_after_first_dot (s : Str) : Nat :=
  match firstIdx '.' s with
  | some p => s.length - (p + 1)
  | none => 0

/-- Does `pat` occur as a substring of `s`? -/
def occursB (pat s : Str) : Bool :=
  (List.range (s.length + 1)).any (fun i => pat.isPrefixOf (s.drop i))

/-- One parsed transaction: the 5-tuple returned by
`extract_fields_from_line`. -/
structure Record where
  date : Str
  description : Str
  operation_id : Str
  value : Str
  balance : Str
deriving DecidableEq

/-- `line[date_match.end():].strip()`: the remainder of the line after the
ten characters matched by the date pattern. -/
def rest_of_line (line : Str) : Str := strip (line.drop 10)

/-- `extract_fields_from_line(line)`. -/
def extract_fields_from_line (line : Str) : Option Record :=
  if date_pattern_match line then
    match idxsOf '$' (rest_of_line line) with
    | i1 :: i2 :: _ =>
      match (digitRuns (strip ((rest_of_line line).take i1))).getLast? with
      | some oid =>
        some { date := line.take 10
               description := strip (pyTake (strip ((rest_of_line line).take i1))
                 (rfind (strip ((rest_of_line line).take i1)) oid))
               operation_id := oid
               value := convert_money_to_number (strip (((rest_of_line line).drop i1).take (i2 - i1)))
               balance := clean_balance (convert_money_to_number (strip ((rest_of_line line).drop i2))) }
      | none => none
    | _ => none
  else none

/-- The row list built by `pdf_text_to_dataframe` (the DataFrame's data). -/
def pdf_text_to_dataframe (text : Str) : List Record :=
  (combine_broken_lines text).filterMap extract_fields_from_line

/-- The no-match condition of the spec: no leading date, fewer than two
currency markers after the date, or no digit run before the first marker. -/
def no_match_condition (line : Str) : Bool :=
  !date_pattern_match line
    || decide ((idxsOf '$' (rest_of_line line)).length < 2)
    || decide (digitRuns (strip ((rest_of_line line).take
        ((idxsOf '$' (rest_of_line line)).headD 0))) = [])

/-- C2: on the spec's end-to-end example line, extraction returns exactly
the record `("01-03-2024", "Pago de servicios", "987654", "1000.00",
"5432.10")`. -/
theorem extract_example_line :
    extract_fields_from_line (strOf "01-03-2024 Pago de servicios 987654 $1.000,00$5.432,10")
      = some { date := strOf "01-03-2024"
               description := strOf "Pago de servicios"
               operation_id := strOf "987654"
               value := strOf "1000.00"
               balance := strOf "5432.10" } := by
  decide

/-- C4: on the two-line input with a leading orphan line, the pipeline
produces exactly one record, and no field of that record contains the
substring "orphan" or "text". -/
theorem pipeline_drops_orphan_record :
    pdf_text_to_dataframe (strOf "orphan text\n02-03-2024 Compra 111 $10,00$100,00")
      = [{ date := strOf "02-03-2024"
           description := strOf "Compra"
           operation_id := strOf "111"
           value := strOf "10.00"
           balance := strOf "100.00" }] ∧
    ([strOf "02-03-2024", strOf "Compra", strOf "111", strOf "10.00", strOf "100.00"].all
      (fun f => !occursB (strOf "orphan") f && !occursB (strOf "text") f)) = true := by
  constructor
  · decide
  · decide

/-- Taking a prefix that is long enough to contain the first occurrence of a
character preserves that first occurrence. -/
theorem firstIdx_take (c : Char) : ∀ (s : Str) (p n : Nat),
    firstIdx c s = some p → p < n → firstIdx c (s.take n) = some p := by
  intro s
  induction s with
  | nil => intro p n h _; simp [firstIdx] at h
  | cons x xs ih =>
    intro p n h hpn
    cases n with
    | zero => exact absurd hpn (Nat.not_lt_zero p)
    | succ m =>
      simp only [List.take_succ_cons]
      by_cases hx : x = c
      · simp only [firstIdx, if_pos hx] at h ⊢
        exact h
      · simp only [firstIdx, if_neg hx, Option.map_eq_some'] at h ⊢
        obtain ⟨q, hq, rfl⟩ := h
        exact ⟨q, ih q m hq (Nat.lt_of_succ_lt_succ hpn), rfl⟩

/-- After `clean_balance`, at most two characters follow the first `'.'`. -/
theorem chars_after_first_dot_clean_balance (s : Str) :
    chars_after_first_dot (clean_balance s) ≤ 2 := by
  cases h : firstIdx '.' s with
  | none => simp [clean_balance, chars_after_first_dot, h]
  | some p =>
    by_cases hlt : p + 3 < s.length
    · have htake : firstIdx '.' (s.take (p + 3)) = some p :=
        firstIdx_take '.' s p (p + 3) h (by omega)
      have hlen : (s.take (p + 3)).length = p + 3 := by
        rw [List.length_take]; omega
      simp only [clean_balance, h, if_pos hlt, chars_after_first_dot, htake, hlen]
      omega
    · simp only [clean_balance, h, if_neg hlt, chars_after_first_dot]
      omega

/-- C8: `clean_balance` is idempotent. -/
theorem clean_balance_idempotent (s : Str) :
    clean_balance (clean_balance s) = clean_balance s := by
  cases h : firstIdx '.' s with
  | none => simp [clean_balance, h]
  | some p =>
    by_cases hlt : p + 3 < s.length
    · have htake : firstIdx '.' (s.take (p + 3)) = some p :=
        firstIdx_take '.' s p (p + 3) h (by omega)
      have hlen : (s.take (p + 3)).length = p + 3 := by
        rw [List.length_take]; omega
      have h1 : clean_balance s = s.take (p + 3) := by
        simp [clean_balance, h, if_pos hlt]
      rw [h1]
      simp [clean_balance, htake, hlen]
    · have h1 : clean_balance s = s := by simp [clean_balance, h, hlt]
      rw [h1, h1]

/-- The transformation described by the spec's words for
`convert_money_to_number`: remove every `'$'`, delete every `'.'`, then
replace every `','` with `'.'` — stated without the final strip, to be
compared with the source definition. -/
def convert_money_spec_words (s : Str) : Str :=
  ((s.filter (fun c => c != '$')).filter (fun c => c != '.')).map
    (fun c => if c = ',' then '.' else c)

/-- C6 counterexample: on `" $1,0"` the source function also strips the
surrounding whitespace, so it differs from the claimed remove-`'$'`,
delete-`'.'`, replace-`','` composition. -/
theorem convert_money_ne_spec_words :
    convert_money_to_number (strOf " $1,0") = strOf "1.0" ∧
    convert_money_spec_words (strOf " $1,0") = strOf " 1.0" ∧
    convert_money_to_number (strOf " $1,0") ≠ convert_money_spec_words (strOf " $1,0") := by
  decide

/-- C6 amended: `convert_money_to_number` removes every `'$'`, deletes
every `'.'`, replaces every `','` with `'.'`, and finally strips leading
and trailing whitespace; in particular `"$1.234,56"` becomes `"1234.56"`
and `"$50,00"` becomes `"50.00"`. -/
theorem convert_money_characterization :
    (∀ s : Str, convert_money_to_number s = strip (convert_money_spec_words s)) ∧
    convert_money_to_number (strOf "$1.234,56") = strOf "1234.56" ∧
    convert_money_to_number (strOf "$50,00") = strOf "50.00" :=
  ⟨fun _ => rfl, by decide, by decide⟩

/-- The raw value span of a line, as the source computes it:
`rest_of_line[first_money:second_money].strip()`, the text from the start
of the first currency marker up to the second (empty when fewer than two
markers exist and no record is emitted). -/
def value_span (line : Str) : Str :=
  match idxsOf '$' (rest_of_line line) with
  | i1 :: i2 :: _ => strip (((rest_of_line line).drop i1).take (i2 - i1))
  | _ => []

/-- C7: the precision clamp applies to the balance field only: every
emitted record's balance has at most two characters after its first `'.'`,
while its value is exactly `convert_money_to_number` of the line's value
span, with no clamp applied; on a line whose two money spans carry the
same raw text normalizing to `"100.456"`, the balance comes out
`"100.45"` and the value stays `"100.456"`. -/
theorem balance_clamped_value_unclamped :
    (∀ (line : Str) (r : Record), extract_fields_from_line line = some r →
      chars_after_first_dot r.balance ≤ 2 ∧
      r.value = convert_money_to_number (value_span line)) ∧
    extract_fields_from_line (strOf "01-01-2024 x 1 $100,456$100,456")
      = some { date := strOf "01-01-2024"
               description := strOf "x"
               operation_id := strOf "1"
               value := strOf "100.456"
               balance := strOf "100.45" } := by
  constructor
  · intro line r h
    unfold extract_fields_from_line at h
    split at h
    · split at h
      · rename_i i1 i2 tail hm
        split at h
        · rw [Option.some_inj] at h
          subst h
          exact ⟨chars_after_first_dot_clean_balance _, by simp [value_span, hm]⟩
        · exact absurd h (by simp)
      · exact absurd h (by simp)
    · exact absurd h (by simp)
  · decide

/-- C7 witness: the clamp bound and the exact value equation applied to
the record extracted from the concrete line. -/
theorem balance_clamped_value_unclamped_witness :
    chars_after_first_dot (strOf "100.45") ≤ 2 ∧
    strOf "100.456" = convert_money_to_number
      (value_span (strOf "01-01-2024 x 1 $100,456$100,456")) :=
  balance_clamped_value_unclamped.1 (strOf "01-01-2024 x 1 $100,456$100,456")
    { date := strOf "01-01-2024"
      description := strOf "x"
      operation_id := strOf "1"
      value := strOf "100.456"
      balance := strOf "100.45" } (by decide)

/-- C1: extraction returns no-match exactly when the line has no leading
date, fewer than two currency markers after it, or no digit run before the
first marker; in every other case it returns a record; and a no-match line
contributes zero records to the collected table. -/
theorem extract_none_iff_no_match (line : Str) :
    (extract_fields_from_line line = none ↔ no_match_condition line = true) ∧
    (extract_fields_from_line line = none →
      ∀ pre post : List Str,
        (pre ++ line :: post).filterMap extract_fields_from_line
          = pre.filterMap extract_fields_from_line
            ++ post.filterMap extract_fields_from_line) := by
  constructor
  · cases hd : date_pattern_match line with
    | false =>
      simp [extract_fields_from_line, no_match_condition, hd]
    | true =>
      cases hm : idxsOf '$' (rest_of_line line) with
      | nil =>
        simp [extract_fields_from_line, no_match_condition, hd, hm]
      | cons i1 t =>
        cases t with
        | nil =>
          simp [extract_fields_from_line, no_match_condition, hd, hm]
        | cons i2 t2 =>
          have hlen : ¬ ((idxsOf '$' (rest_of_line line)).length < 2) := by
            rw [hm]; simp only [List.length_cons]; omega
          cases hg : (digitRuns (strip ((rest_of_line line).take i1))).getLast? with
          | none =>
            have hnil : digitRuns (strip ((rest_of_line line).take i1)) = [] :=
              List.getLast?_eq_none_iff.mp hg
            simp [extract_fields_from_line, no_match_condition, hd, hm, hg, hnil]
          | some oid =>
            have hne : digitRuns (strip ((rest_of_line line).take i1)) ≠ [] := by
              intro hnil; rw [hnil] at hg; simp at hg
            simp [extract_fields_from_line, no_match_condition, hd, hm, hg, hne, hlen]
  · intro h pre post
    rw [List.filterMap_append pre (line :: post) extract_fields_from_line]
    simp [List.filterMap_cons, h]

/-- C1 witness: a concrete unparseable line contributes zero records when a
parseable line surrounds it. -/
theorem extract_none_iff_no_match_witness :
    ([strOf "01-03-2024 a 1 $2$3"] ++ strOf "garbage" :: []).filterMap extract_fields_from_line
      = [strOf "01-03-2024 a 1 $2$3"].filterMap extract_fields_from_line
        ++ List.filterMap extract_fields_from_line [] :=
  (extract_none_iff_no_match (strOf "garbage")).2 (by decide) [strOf "01-03-2024 a 1 $2$3"] []

/-- C10: with a leading date, three or more currency markers after it and a
digit run before the first marker, extraction still returns exactly one
record: only the first two marker positions split the spans, and the
balance span runs from the second marker to the end of the line, absorbing
every later marker. -/
theorem extra_markers_absorbed_into_balance (line : Str) (i1 i2 : Nat) (more : List Nat)
    (oid : Str)
    (hdate : date_pattern_match line = true)
    (hm : idxsOf '$' (rest_of_line line) = i1 :: i2 :: more)
    (_hmore : more ≠ [])
    (hid : (digitRuns (strip ((rest_of_line line).take i1))).getLast? = some oid) :
    extract_fields_from_line line = some
      { date := line.take 10
        description := strip (pyTake (strip ((rest_of_line line).take i1))
          (rfind (strip ((rest_of_line line).take i1)) oid))
        operation_id := oid
        value := convert_money_to_number (strip (((rest_of_line line).drop i1).take (i2 - i1)))
        balance := clean_balance (convert_money_to_number (strip ((rest_of_line line).drop i2))) } := by
  simp [extract_fields_from_line, hdate, hm, hid]

/-- C10 witness: a line with three markers yields one record whose balance
absorbs the third marker (`"$3$4"` normalizes to `"34"`). -/
theorem extra_markers_absorbed_into_balance_witness :
    extract_fields_from_line (strOf "01-01-2024 a 1 $2$3$4")
      = some { date := strOf "01-01-2024"
               description := strOf "a"
               operation_id := strOf "1"
               value := strOf "2"
               balance := strOf "34" } :=
  (extra_markers_absorbed_into_balance (strOf "01-01-2024 a 1 $2$3$4") 4 6 [8] (strOf "1")
    (by decide) (by decide) (by decide) (by decide)).trans (by decide)

/-- Splitting the characters at a `'\n'` splits the line list. -/
theorem splitNLAux_append : ∀ (t1 acc t2 : Str),
    splitNLAux acc (t1 ++ '\n' :: t2) = splitNLAux acc t1 ++ splitNLAux [] t2 := by
  intro t1
  induction t1 with
  | nil => intro acc t2; simp [splitNLAux]
  | cons c cs ih =>
    intro acc t2
    by_cases hc : c = '\n'
    · subst hc; simp [splitNLAux, ih]
    · simp [splitNLAux, hc, ih]

/-- Processing lines that continue past a date-matching line splits at that
line: the accumulator is flushed there exactly as it is at end of input. -/
theorem combineLinesAux_append_date (hd : Str) (tl : List Str)
    (hdate : date_pattern_match hd = true) :
    ∀ (l1 : List Str) (cur : Str),
      combineLinesAux cur (l1 ++ hd :: tl)
        = combineLinesAux cur l1 ++ combineLinesAux [] (hd :: tl) := by
  intro l1
  induction l1 with
  | nil => intro cur; simp [combineLinesAux, hdate, flushAcc]
  | cons x xs ih =>
    intro cur
    by_cases hx : date_pattern_match x = true
    · simp [combineLinesAux, hx, ih, List.append_assoc]
    · simp [combineLinesAux, hx, ih]

/-- C5: reconstruction is associative over record boundaries: splitting the
input text at a line break where the second half begins with a
date-matching line, reconstructing each half and concatenating the
results, equals reconstructing the whole text. -/
theorem combine_broken_lines_split (t1 t2 : Str) (hd : Str) (tl : List Str)
    (h2 : splitNL t2 = hd :: tl) (hdate : date_pattern_match hd = true) :
    combine_broken_lines (t1 ++ '\n' :: t2)
      = combine_broken_lines t1 ++ combine_broken_lines t2 := by
  have h2' : splitNLAux [] t2 = hd :: tl := h2
  unfold combine_broken_lines splitNL
  rw [splitNLAux_append t1 [] t2, h2']
  exact combineLinesAux_append_date hd tl hdate (splitNLAux [] t1) []

/-- C5 witness: the split law at a concrete two-record text. -/
theorem combine_broken_lines_split_witness :
    combine_broken_lines (strOf "01-01-2024 a" ++ '\n' :: strOf "02-01-2024 b")
      = combine_broken_lines (strOf "01-01-2024 a")
        ++ combine_broken_lines (strOf "02-01-2024 b") :=
  combine_broken_lines_split (strOf "01-01-2024 a") (strOf "02-01-2024 b")
    (strOf "02-01-2024 b") [] (by decide) (by decide)

/-- C3 counterexample: the reconstructor does not discard raw lines before
the first date match — on `"orphan text\n02-03-2024 …"` its first output
line is `"orphan text"`, which does not begin with a date token. -/
theorem combine_keeps_predate_lines :
    combine_broken_lines (strOf "orphan text\n02-03-2024 Compra 111 $10,00$100,00")
      = [strOf "orphan text", strOf "02-03-2024 Compra 111 $10,00$100,00"] ∧
    date_pattern_match (strOf "orphan text") = false := by
  decide

/-- `current_line += " " + line` iterated over a list of lines. -/
def appendLines (cur : Str) (ls : List Str) : Str :=
  ls.foldl (fun a l => a ++ ' ' :: l) cur

/-- Lines that do not match the date pattern are accumulated, not emitted. -/
theorem combineLinesAux_nodate (rest : List Str) :
    ∀ (pre : List Str) (cur : Str), (∀ l ∈ pre, date_pattern_match l = false) →
      combineLinesAux cur (pre ++ rest) = combineLinesAux (appendLines cur pre) rest := by
  intro pre
  induction pre with
  | nil => intro cur _; simp [appendLines]
  | cons x xs ih =>
    intro cur h
    have hx : date_pattern_match x = false := h x (by simp)
    simp only [List.cons_append, combineLinesAux, hx, Bool.false_eq_true, if_false]
    rw [show xs.append rest = xs ++ rest from rfl,
      ih (cur ++ ' ' :: x) (fun l hl => h l (by simp [hl]))]
    simp [appendLines]

/-- Accumulating at least one line onto a nonempty accumulator keeps it
nonempty. -/
theorem appendLines_ne_nil : ∀ (ls : List Str) (cur : Str), cur ≠ [] → appendLines cur ls ≠ [] := by
  intro ls
  induction ls with
  | nil => intro cur h; simpa [appendLines] using h
  | cons x xs ih =>
    intro cur _
    simp only [appendLines, List.foldl_cons]
    exact ih (cur ++ ' ' :: x) (by simp)

/-- C3 amended: raw lines before the first date match are not discarded by
the reconstructor: they are joined with single spaces and flushed
(stripped) as an initial logical line — when the first date line arrives,
or at end of input — and the reconstruction of the remaining lines is
unchanged.  (They disappear from the final table only if field extraction
later rejects that initial line.) -/
theorem combine_emits_predate_lines (pre rest : List Str)
    (hne : pre ≠ [])
    (hnd : ∀ l ∈ pre, date_pattern_match l = false)
    (hrest : rest = [] ∨ ∃ hd tl, rest = hd :: tl ∧ date_pattern_match hd = true) :
    combineLinesAux [] (pre ++ rest)
      = strip (appendLines [] pre) :: combineLinesAux [] rest := by
  rw [combineLinesAux_nodate rest pre [] hnd]
  have hJ : appendLines [] pre ≠ [] := by
    cases pre with
    | nil => exact absurd rfl hne
    | cons x xs =>
      show appendLines [] (x :: xs) ≠ []
      simp only [appendLines, List.foldl_cons, List.nil_append]
      exact appendLines_ne_nil xs (' ' :: x) (by simp)
  rcases hrest with rfl | ⟨hd, tl, rfl, hdate⟩
  · simp [combineLinesAux, flushAcc, hJ]
  · simp [combineLinesAux, flushAcc, hJ, hdate]

/-- C3 amended witness: one orphan line followed by one date line. -/
theorem combine_emits_predate_lines_witness :
    combineLinesAux [] ([strOf "orphan text"] ++ [strOf "01-01-2024 a"])
      = strip (appendLines [] [strOf "orphan text"])
        :: combineLinesAux [] [strOf "01-01-2024 a"] :=
  combine_emits_predate_lines [strOf "orphan text"] [strOf "01-01-2024 a"]
    (by decide) (by decide) (Or.inr ⟨strOf "01-01-2024 a", [], rfl, by decide⟩)

/-- `isPrefixOf` implies the length inequality. -/
theorem isPrefixOf_length_le : ∀ (p l : Str), p.isPrefixOf l = true → p.length ≤ l.length
  | [], _, _ => Nat.zero_le _
  | _ :: _, [], h => by simp [List.isPrefixOf] at h
  | a :: p, b :: l, h => by
    simp only [List.isPrefixOf, Bool.and_eq_true] at h
    exact Nat.succ_le_succ (isPrefixOf_length_le p l h.2)

/-- Every digit run produced by `digitRunsAux run s` occurs as a substring
of `run.reverse ++ s`, at a position within the string. -/
theorem digitRunsAux_occurs : ∀ (s run r : Str), r ∈ digitRunsAux run s →
    ∃ i, i ≤ (run.reverse ++ s).length ∧ r.isPrefixOf ((run.reverse ++ s).drop i) = true := by
  intro s
  induction s with
  | nil =>
    intro run r hr
    by_cases h : run = []
    · subst h; simp [digitRunsAux] at hr
    · simp only [digitRunsAux, if_neg h, List.mem_singleton] at hr
      subst hr
      exact ⟨0, Nat.zero_le _, by simp⟩
  | cons c cs ih =>
    intro run r hr
    by_cases hc : c.isDigit = true
    · simp only [digitRunsAux, hc, if_true] at hr
      obtain ⟨i, hi, hp⟩ := ih (c :: run) r hr
      rw [List.reverse_cons, List.append_assoc, List.singleton_append] at hi hp
      exact ⟨i, hi, hp⟩
    · by_cases hrun : run = []
      · subst hrun
        simp only [digitRunsAux, hc, Bool.false_eq_true, if_false, if_pos rfl] at hr
        obtain ⟨i, hi, hp⟩ := ih [] r hr
        simp only [List.reverse_nil, List.nil_append] at hi hp ⊢
        exact ⟨i + 1, by simpa using Nat.succ_le_succ hi, by simpa using hp⟩
      · simp only [digitRunsAux, hc, Bool.false_eq_true, if_false, if_neg hrun,
          List.mem_cons] at hr
        rcases hr with rfl | hr
        · exact ⟨0, Nat.zero_le _, by simp⟩
        · obtain ⟨i, hi, hp⟩ := ih [] r hr
          simp only [List.reverse_nil, List.nil_append] at hi hp
          refine ⟨run.reverse.length + (i + 1), ?_, ?_⟩
          · simp only [List.length_append, List.length_cons]
            omega
          · rw [show run.reverse.length + (i + 1) = run.reverse.length + (i + 1) from rfl,
              List.drop_append (i + 1)]
            simpa using hp

/-- The operation identifier — the last digit run of the pre-money segment —
occurs as a substring of that segment. -/
theorem digitRuns_last_occurs {s oid : Str} (h : (digitRuns s).getLast? = some oid) :
    ∃ i, i ≤ s.length ∧ oid.isPrefixOf (s.drop i) = true := by
  have hmem : oid ∈ digitRuns s := List.mem_of_mem_getLast? h
  simpa using digitRunsAux_occurs s [] oid hmem

/-- When the pattern occurs in the string, `rfind` returns a nonnegative
position from which the pattern fits inside the string. -/
theorem rfind_found {s pat : Str}
    (h : ∃ i, i ≤ s.length ∧ pat.isPrefixOf (s.drop i) = true) :
    0 ≤ rfind s pat ∧ (rfind s pat).toNat + pat.length ≤ s.length := by
  obtain ⟨i, hi, hp⟩ := h
  have hmem : i ∈ occIdxs s pat := by
    simp only [occIdxs, List.mem_filter, List.mem_range]
    exact ⟨Nat.lt_succ_of_le hi, hp⟩
  obtain ⟨p, hp'⟩ : ∃ p, (occIdxs s pat).getLast? = some p := by
    cases hq : (occIdxs s pat).getLast? with
    | none =>
      rw [List.getLast?_eq_none_iff] at hq
      rw [hq] at hmem
      exact absurd hmem (List.not_mem_nil i)
    | some p => exact ⟨p, rfl⟩
  have hpmem : p ∈ occIdxs s pat := List.mem_of_mem_getLast? hp'
  have hpspec : p < s.length + 1 ∧ pat.isPrefixOf (s.drop p) = true := by
    simpa only [occIdxs, List.mem_filter, List.mem_range] using hpmem
  have hlen : pat.length ≤ (s.drop p).length := isPrefixOf_length_le _ _ hpspec.2
  rw [List.length_drop] at hlen
  constructor
  · simp [rfind, hp']
  · have hp1 : p < s.length + 1 := hpspec.1
    simp only [rfind, hp', Int.toNat_ofNat]
    omega

/-- C9: `extract_fields_from_line` is total — on every string it returns
either no-match or a record — and the `rfind`-based description split is
always in bounds: whenever the pre-money segment has a last digit run,
`rfind` on it returns a nonnegative index and the identifier fits inside
the segment from that index. -/
theorem extract_total_and_safe :
    (∀ line : Str, extract_fields_from_line line = none ∨
      ∃ r : Record, extract_fields_from_line line = some r) ∧
    (∀ s oid : Str, (digitRuns s).getLast? = some oid →
      0 ≤ rfind s oid ∧ (rfind s oid).toNat + oid.length ≤ s.length) := by
  constructor
  · intro line
    cases h : extract_fields_from_line line with
    | none => exact Or.inl rfl
    | some r => exact Or.inr ⟨r, rfl⟩
  · intro s oid h
    exact rfind_found (digitRuns_last_occurs h)

/-- C9 witness: totality on a dateless line and the `rfind` bound on a
concrete pre-money segment whose identifier also occurs earlier. -/
theorem extract_total_and_safe_witness :
    (extract_fields_from_line (strOf "hello") = none ∨
      ∃ r : Record, extract_fields_from_line (strOf "hello") = some r) ∧
    (0 ≤ rfind (strOf "a12b 12") (strOf "12") ∧
      (rfind (strOf "a12b 12")  (strOf "12")).toNat + (strOf "12").length
        ≤ (strOf "a12b 12").length) :=
  ⟨extract_total_and_safe.1 (strOf "hello"),
   extract_total_and_safe.2 (strOf "a12b 12") (strOf "12") (by decide)⟩

end MP
